import Mathlib

/-!
Shallow embedding of `src/app/page.tsx`: a client-side cryptocurrency
dashboard.  The component state, the fetch lifecycle (`fetchCryptoData`
with its timeout/retry loop and error classification), the scheduler
effect, the favorites store with its localStorage persistence, and the
pure filter/sort views are translated into executable Lean definitions,
and the specification's claims are settled as theorems about them.
-/

namespace CryptoDash

/-- The listing record shape (`interface CryptoData`, page.tsx lines 9-21).
Numeric JS fields are modelled as rationals; `ath_date` stays a string. -/
structure CryptoData where
  id : String
  symbol : String
  name : String
  image : String
  current_price : Rat
  price_change_percentage_24h : Rat
  market_cap : Rat
  total_volume : Rat
  circulating_supply : Rat
  ath : Rat
  ath_date : String
deriving Repr, DecidableEq

/-- `MEME_COINS` (page.tsx line 23). -/
def MEME_COINS : List String := ["dogecoin", "shiba-inu", "pepe", "floki", "bonk"]

/-- `HOT_THRESHOLD` (line 24): $1B in volume for hot coins. -/
def HOT_THRESHOLD : Rat := 1000000000

/-- `NEW_THRESHOLD` (line 25): days to consider a coin new. -/
def NEW_THRESHOLD : Nat := 30

/-- `FETCH_TIMEOUT` (line 26): 15 seconds timeout. -/
def FETCH_TIMEOUT : Nat := 15000

/-- `RETRY_DELAY` (line 27): 3 seconds between retries. -/
def RETRY_DELAY : Nat := 3000

/-- `MAX_RETRIES` (line 28). -/
def MAX_RETRIES : Nat := 3

/-- `AUTO_REFRESH_INTERVAL` (line 29): 60 seconds. -/
def AUTO_REFRESH_INTERVAL : Nat := 60000

/-- Error message thrown on HTTP 429 (line 83). -/
def rateLimitMsg : String := "Rate limit exceeded. Please wait a moment before refreshing."

/-- Error message thrown on a non-OK HTTP status (line 87). -/
def httpErrorMsg (status : Nat) : String :=
  "Failed to fetch data (HTTP " ++ toString status ++ ")"

/-- Error message thrown on a non-array body (line 92). -/
def invalidDataMsg : String := "Invalid data received from the server"

/-- Error message shown after the retry budget is exhausted (line 107). -/
def timeoutMsg : String := "Request timed out. Please try again."

/-- The pieces of `Home`'s React state touched by the fetch lifecycle
(lines 32-43). -/
structure HomeState where
  cryptoData : List CryptoData
  favorites : List String
  loading : Bool
  error : Option String
  lastFetchTime : Int
  isRefreshing : Bool
deriving Repr, DecidableEq

/-- Result of awaiting `response.json()` on an OK response: a JSON array
of listings, some other JSON value (line 91's `Array.isArray` guard
fails), or a rejection of the json promise with a message. -/
inductive BodyResult where
  | arr (data : List CryptoData)
  | nonArray
  | parseFail (msg : String)
deriving Repr, DecidableEq

/-- Environment model of one attempt of the `fetch` call: the request
is aborted by the 15s timer (an `AbortError`), or a response with a
status and body arrives, or the fetch rejects with some other error
carrying a message. -/
inductive FetchOutcome where
  | timeout
  | response (status : Nat) (body : BodyResult)
  | netError (msg : String)
deriving Repr, DecidableEq

/-- `response.ok` per the fetch specification: status in 200..299. -/
def responseOk (status : Nat) : Bool :=
  decide (200 ≤ status) && decide (status ≤ 299)

/-- The early-return throttle inside `fetchCryptoData` (line 47):
`!isManualRefresh && now - lastFetchTime < 10000 && cryptoData.length > 0`. -/
def skipGuard (isManual : Bool) (now : Int) (s : HomeState) : Bool :=
  !isManual && decide (now - s.lastFetchTime < 10000) && decide (0 < s.cryptoData.length)

/-- Lines 51-56: `setIsRefreshing(true)` on manual refresh, else
`setLoading(true)`; then `setError(null)`. -/
def setBusy (isManual : Bool) (s : HomeState) : HomeState :=
  if isManual then { s with isRefreshing := true, error := none }
  else { s with loading := true, error := none }

/-- The `finally` block (lines 119-125): clears the busy flag that the
invocation set. -/
def applyFinally (isManual : Bool) (s : HomeState) : HomeState :=
  if isManual then { s with isRefreshing := false } else { s with loading := false }

/-- The error path of the `catch` block (lines 107-118): record the
message and, when no data is held, `setCryptoData([])` (line 116-118);
existing data is kept. -/
def failWith (msg : String) (s : HomeState) : HomeState :=
  { s with error := some msg,
           cryptoData := if s.cryptoData.length = 0 then [] else s.cryptoData }

/-- Handling of a completed (non-aborted) attempt, lines 82-97 plus the
corresponding `catch` cases: classify 429, non-OK status and non-array
bodies into error messages; on success store the data, stamp
`lastFetchTime` with this invocation's `now` and clear the error. -/
def handleOutcome (now : Int) (oc : FetchOutcome) (s1 : HomeState) : HomeState :=
  match oc with
  | .timeout => s1
  | .netError msg => failWith msg s1
  | .response status body =>
    if status = 429 then failWith rateLimitMsg s1
    else if responseOk status = false then failWith (httpErrorMsg status) s1
    else
      match body with
      | .arr data => { s1 with cryptoData := data, lastFetchTime := now, error := none }
      | .nonArray => failWith invalidDataMsg s1
      | .parseFail msg => failWith msg s1

/-- The body of `fetchCryptoData` (lines 45-126), with the environment
made explicit: `t k` is `Date.now()` at the `k`-th (recursive)
invocation and `o k` the outcome of its fetch attempt.  Returns the
final state, the number of HTTP requests issued, and the list of delays
performed before retries (line 104's `setTimeout(RETRY_DELAY)`).
An `AbortError` with retries left recurses with `retries - 1`
(line 105); the outer `finally` still runs around the recursive call. -/
def runFetchAux (m : Bool) (t : Nat → Int) (o : Nat → FetchOutcome) :
    Nat → Nat → HomeState → HomeState × Nat × List Nat
  | 0, k, s =>
    if skipGuard m (t k) s then (s, 0, [])
    else
      let s1 := setBusy m s
      match o k with
      | .timeout => (applyFinally m (failWith timeoutMsg s1), 1, [])
      | .response status body =>
        (applyFinally m (handleOutcome (t k) (.response status body) s1), 1, [])
      | .netError msg =>
        (applyFinally m (handleOutcome (t k) (.netError msg) s1), 1, [])
  | r + 1, k, s =>
    if skipGuard m (t k) s then (s, 0, [])
    else
      let s1 := setBusy m s
      match o k with
      | .timeout =>
        let res := runFetchAux m t o r (k + 1) s1
        (applyFinally m res.1, res.2.1 + 1, RETRY_DELAY :: res.2.2)
      | .response status body =>
        (applyFinally m (handleOutcome (t k) (.response status body) s1), 1, [])
      | .netError msg =>
        (applyFinally m (handleOutcome (t k) (.netError msg) s1), 1, [])

/-- `fetchCryptoData(retries = MAX_RETRIES, isManualRefresh)` as invoked
from the component (lines 132-133 and 254). -/
def fetchCryptoData (m : Bool) (t : Nat → Int) (o : Nat → FetchOutcome)
    (s : HomeState) : HomeState × Nat × List Nat :=
  runFetchAux m t o MAX_RETRIES 0 s

/-- The refresh button's `disabled` expression (line 256):
`isRefreshing || Date.now() - lastFetchTime < 10000`. -/
def manualRefreshDisabled (now : Int) (s : HomeState) : Bool :=
  s.isRefreshing || decide (now - s.lastFetchTime < 10000)

/-- `toggleFavorite` (lines 151-157). -/
def toggleFavorite (favorites : List String) (cryptoId : String) : List String :=
  if favorites.contains cryptoId then favorites.filter (fun i => i != cryptoId)
  else favorites ++ [cryptoId]

/-- `filterCryptos` (lines 159-178).  `parseDate` models `new Date(·)`
on the stored `ath_date` strings and `now` the current epoch
milliseconds; 2592000000 ms is the 30 days subtracted on line 167. -/
def filterCryptos (parseDate : String → Int) (now : Int)
    (cryptoData : List CryptoData) (favorites : List String)
    (category : String) : List CryptoData :=
  if category = "favorites" then
    cryptoData.filter (fun c => favorites.contains c.id)
  else if category = "hot" then
    cryptoData.filter (fun c => decide (HOT_THRESHOLD ≤ c.total_volume))
  else if category = "new" then
    let thirtyDaysAgo := now - 2592000000
    cryptoData.filter (fun c => decide (thirtyDaysAgo ≤ parseDate c.ath_date))
  else if category = "gainers" then
    (cryptoData.mergeSort
      (fun a b => decide (b.price_change_percentage_24h ≤ a.price_change_percentage_24h))).take 10
  else if category = "meme" then
    cryptoData.filter (fun c => MEME_COINS.contains c.id)
  else
    cryptoData.take 10

/-- `filterCryptos` as called from the component: it reads the state and
invokes no state setter, so the state after producing a view is returned
alongside the view itself. -/
def filterCryptosView (parseDate : String → Int) (now : Int)
    (s : HomeState) (category : String) : List CryptoData × HomeState :=
  (filterCryptos parseDate now s.cryptoData s.favorites category, s)

/-! ### localStorage and the favorites persistence (lines 33-39, 145-149) -/

/-- `window.localStorage` modelled as an association list from keys to
stored strings. -/
abbrev Store := List (String × String)

/-- `localStorage.getItem` (returns `null` for an absent key). -/
def getItem (store : Store) (key : String) : Option String :=
  (store.find? (fun kv => kv.1 == key)).map (fun kv => kv.2)

/-- `localStorage.setItem`. -/
def setItem (store : Store) (key : String) (value : String) : Store :=
  (key, value) :: store.filter (fun kv => kv.1 != key)

/-- Hex digit emitted by `JSON.stringify` in a `\u00XX` escape
(lower-case, per the JSON serialization algorithm). -/
def hexDigitChar (n : Nat) : Char :=
  if n < 10 then Char.ofNat (48 + n) else Char.ofNat (87 + n)

/-- Value of a hex digit accepted by `JSON.parse` in a `\uXXXX` escape. -/
def hexVal (c : Char) : Option Nat :=
  if 48 ≤ c.toNat ∧ c.toNat ≤ 57 then some (c.toNat - 48)
  else if 97 ≤ c.toNat ∧ c.toNat ≤ 102 then some (c.toNat - 87)
  else if 65 ≤ c.toNat ∧ c.toNat ≤ 70 then some (c.toNat - 55)
  else none

/-- How `JSON.stringify` renders one character inside a string literal:
quote and backslash get a backslash escape, the five named control
characters get their short escapes, the remaining control characters a
`\u00XX` escape, and every other character stands for itself. -/
def escChar (c : Char) : List Char :=
  if c = '"' then ['\\', '"']
  else if c = '\\' then ['\\', '\\']
  else if c = '\x08' then ['\\', 'b']
  else if c = '\x0c' then ['\\', 'f']
  else if c = '\n' then ['\\', 'n']
  else if c = '\r' then ['\\', 'r']
  else if c = '\t' then ['\\', 't']
  else if c.toNat < 32 then
    ['\\', 'u', '0', '0', hexDigitChar (c.toNat / 16), hexDigitChar (c.toNat % 16)]
  else [c]

/-- `JSON.stringify`'s escaping applied to a whole character sequence. -/
def encodeChars : List Char → List Char
  | [] => []
  | c :: cs => escChar c ++ encodeChars cs

/-- One escape sequence as decoded by `JSON.parse`, given the characters
after the backslash; returns the decoded character and the rest. -/
def unescape1 : List Char → Option (Char × List Char)
  | [] => none
  | e :: r =>
    if e = '"' then some ('"', r)
    else if e = '\\' then some ('\\', r)
    else if e = '/' then some ('/', r)
    else if e = 'b' then some ('\x08', r)
    else if e = 'f' then some ('\x0c', r)
    else if e = 'n' then some ('\n', r)
    else if e = 'r' then some ('\r', r)
    else if e = 't' then some ('\t', r)
    else if e = 'u' then
      match r with
      | h1 :: h2 :: h3 :: h4 :: r2 =>
        match hexVal h1, hexVal h2, hexVal h3, hexVal h4 with
        | some a, some b, some c, some d =>
          some (Char.ofNat (4096 * a + 256 * b + 16 * c + d), r2)
        | _, _, _, _ => none
      | _ => none
    else none

/-- `JSON.parse` of the inside of a string literal (everything after the
opening quote), fuel-indexed: returns the decoded characters and the
input remaining after the closing quote. -/
def decodeCharsF : Nat → List Char → Option (List Char × List Char)
  | 0, _ => none
  | _ + 1, [] => none
  | fuel + 1, c :: rest =>
    if c = '"' then some ([], rest)
    else if c = '\\' then
      match unescape1 rest with
      | none => none
      | some (d, r) => (decodeCharsF fuel r).map (fun p => (d :: p.1, p.2))
    else (decodeCharsF fuel rest).map (fun p => (c :: p.1, p.2))

/-- The character stream `JSON.stringify` produces for the elements of a
non-empty string array (everything between `[` and `]`). -/
def encodeElems : List String → List Char
  | [] => []
  | [s] => '"' :: (encodeChars s.data ++ ['"'])
  | s :: ss => '"' :: (encodeChars s.data ++ ['"'] ++ (',' :: encodeElems ss))

/-- `JSON.stringify` of the favorites array (lines 147):
`[]` for the empty list, else the bracketed comma-separated string
literals. -/
def encodeFavs (favorites : List String) : String :=
  String.mk ('[' :: (encodeElems favorites ++ [']']))

/-- `JSON.parse` of the elements of a string array, positioned at the
start of an element; returns the strings and the input after the `]`. -/
def decodeArrAux : Nat → List Char → Option (List String × List Char)
  | 0, _ => none
  | fuel + 1, '"' :: rest =>
    match decodeCharsF (rest.length + 1) rest with
    | none => none
    | some (s, r) =>
      match r with
      | ',' :: r2 => (decodeArrAux fuel r2).map (fun p => (String.mk s :: p.1, p.2))
      | ']' :: r2 => some ([String.mk s], r2)
      | _ => none
  | _ + 1, _ => none

/-- `JSON.parse` of a serialized favorites array (line 36's
`JSON.parse(saved)` restricted to the string-array values this
application stores); `none` models a parse failure. -/
def decodeFavs (s : String) : Option (List String) :=
  match s.data with
  | '[' :: rest =>
    if rest = [']'] then some []
    else
      match decodeArrAux (rest.length + 1) rest with
      | some (l, []) => some l
      | _ => none
  | _ => none

/-- The persistence effect (lines 145-149): on every change of
`favorites` the whole list is serialized under the key
`cryptoFavorites`. -/
def persistFavorites (store : Store) (favorites : List String) : Store :=
  setItem store "cryptoFavorites" (encodeFavs favorites)

/-- The `useState` initializer for `favorites` (lines 33-39): read the
`cryptoFavorites` key, parse it when present, default to the empty list
when absent.  `none` models `JSON.parse` throwing on corrupt input. -/
def loadFavorites (store : Store) : Option (List String) :=
  match getItem store "cryptoFavorites" with
  | none => some []
  | some s => decodeFavs s

/-! ### The scheduler effect (lines 128-143)

Discrete-time operational model of the mount effect: at `mount` the
initial `fetchCryptoData()` call is issued; the `await` completes at
`initDone`, at which point `setInterval(, AUTO_REFRESH_INTERVAL)` is
registered; the cleanup runs at `cleared` and calls
`clearInterval(intervalId)` — which clears the interval only if it has
already been registered at that moment, since `intervalId` is assigned
only after the initial fetch resolves.  Each tick appends the times at
which `fetchCryptoData` is invoked. -/

structure SchedTrace where
  intervalStart : Option Nat
  fetches : List Nat
deriving Repr, DecidableEq

/-- An interval registered at `c` fires `AUTO_REFRESH_INTERVAL`-periodically
after its registration. -/
def intervalFireB (interval : Option Nat) (tNow : Nat) : Bool :=
  match interval with
  | some c => decide (c < tNow) && decide ((tNow - c) % AUTO_REFRESH_INTERVAL = 0)
  | none => false

/-- One tick of the scheduler at time `tNow`: the mount-time fetch, the
interval registration at `initDone`, the cleanup at `cleared` (clearing
only a registration that already happened), and a firing of the live
interval. -/
def schedStep (mount initDone cleared : Nat) (s : SchedTrace) (tNow : Nat) : SchedTrace :=
  let fetched := if tNow = mount then s.fetches ++ [tNow] else s.fetches
  let interval :=
    if tNow = cleared then none
    else if tNow = initDone then some tNow
    else s.intervalStart
  if intervalFireB interval tNow then ⟨interval, fetched ++ [tNow]⟩
  else ⟨interval, fetched⟩

/-- The scheduler run over ticks `0, 1, ..., T-1`. -/
def schedRun (mount initDone cleared : Nat) : Nat → SchedTrace
  | 0 => ⟨none, []⟩
  | T + 1 => schedStep mount initDone cleared (schedRun mount initDone cleared T) T

/-- Closed form of the tick at which the interval is live after the
updates of tick `t`: registered by `t`, and not yet cleared (clearing
at `cleared` has an effect only when the registration happened no later,
which is the leak when teardown precedes the initial fetch's
completion). -/
def intervalLive (initDone cleared t : Nat) : Prop :=
  initDone ≤ t ∧ (initDone ≤ cleared → t < cleared)

/-- Closed form of an interval firing at tick `t`. -/
def schedFire (initDone cleared t : Nat) : Prop :=
  intervalLive initDone cleared t ∧ initDone < t ∧ (t - initDone) % AUTO_REFRESH_INTERVAL = 0

instance (initDone cleared t : Nat) : Decidable (intervalLive initDone cleared t) := by
  unfold intervalLive; infer_instance

instance (initDone cleared t : Nat) : Decidable (schedFire initDone cleared t) := by
  unfold schedFire; infer_instance

/-! ### Basic state-transformer lemmas -/

theorem setBusy_cryptoData (m : Bool) (s : HomeState) :
    (setBusy m s).cryptoData = s.cryptoData := by
  cases m <;> rfl

theorem setBusy_lastFetchTime (m : Bool) (s : HomeState) :
    (setBusy m s).lastFetchTime = s.lastFetchTime := by
  cases m <;> rfl

theorem setBusy_error (m : Bool) (s : HomeState) : (setBusy m s).error = none := by
  cases m <;> rfl

theorem setBusy_idem (m : Bool) (s : HomeState) : setBusy m (setBusy m s) = setBusy m s := by
  cases m <;> rfl

theorem applyFinally_cryptoData (m : Bool) (s : HomeState) :
    (applyFinally m s).cryptoData = s.cryptoData := by
  cases m <;> rfl

theorem applyFinally_lastFetchTime (m : Bool) (s : HomeState) :
    (applyFinally m s).lastFetchTime = s.lastFetchTime := by
  cases m <;> rfl

theorem applyFinally_error (m : Bool) (s : HomeState) :
    (applyFinally m s).error = s.error := by
  cases m <;> rfl

theorem applyFinally_idem (m : Bool) (s : HomeState) :
    applyFinally m (applyFinally m s) = applyFinally m s := by
  cases m <;> rfl

theorem failWith_cryptoData (msg : String) (s : HomeState) :
    (failWith msg s).cryptoData = s.cryptoData := by
  show (if s.cryptoData.length = 0 then [] else s.cryptoData) = s.cryptoData
  split
  · exact (List.length_eq_zero.mp (by assumption)).symm
  · rfl

theorem failWith_lastFetchTime (msg : String) (s : HomeState) :
    (failWith msg s).lastFetchTime = s.lastFetchTime := rfl

theorem failWith_error (msg : String) (s : HomeState) :
    (failWith msg s).error = some msg := rfl

/-- A 2xx status is never 429. -/
theorem responseOk_ne_429 {status : Nat} (h : responseOk status = true) : status ≠ 429 := by
  simp only [responseOk, Bool.and_eq_true, decide_eq_true_eq] at h
  omega

theorem handleOutcome_success {status : Nat} (h : responseOk status = true)
    (now : Int) (data : List CryptoData) (s1 : HomeState) :
    handleOutcome now (.response status (.arr data)) s1 =
      { s1 with cryptoData := data, lastFetchTime := now, error := none } := by
  simp [handleOutcome, responseOk_ne_429 h, h]

/-- An attempt outcome that the code treats as success: a 2xx response
whose body is a JSON array. -/
def isSuccess : FetchOutcome → Prop
  | .response status (.arr _) => responseOk status = true
  | _ => False

instance (oc : FetchOutcome) : Decidable (isSuccess oc) := by
  unfold isSuccess
  match oc with
  | .timeout => exact inferInstanceAs (Decidable False)
  | .netError _ => exact inferInstanceAs (Decidable False)
  | .response status (.arr _) => exact inferInstanceAs (Decidable (_ = true))
  | .response status .nonArray => exact inferInstanceAs (Decidable False)
  | .response status (.parseFail _) => exact inferInstanceAs (Decidable False)

/-- Every completed attempt that is not a success lands in a `failWith`
branch. -/
theorem handleOutcome_fail {oc : FetchOutcome} (hnt : oc ≠ .timeout)
    (hns : ¬ isSuccess oc) (now : Int) (s1 : HomeState) :
    ∃ msg, handleOutcome now oc s1 = failWith msg s1 := by
  match oc with
  | .timeout => exact absurd rfl hnt
  | .netError msg => exact ⟨msg, rfl⟩
  | .response status body =>
    by_cases h429 : status = 429
    · exact ⟨rateLimitMsg, by simp [handleOutcome, h429]⟩
    · by_cases hok : responseOk status = true
      · match body with
        | .arr data => exact absurd hok hns
        | .nonArray => exact ⟨invalidDataMsg, by simp [handleOutcome, h429, hok]⟩
        | .parseFail msg => exact ⟨msg, by simp [handleOutcome, h429, hok]⟩
      · exact ⟨httpErrorMsg status, by
          simp [handleOutcome, h429, Bool.eq_false_iff.mpr hok]⟩

/-! ### Unfolding lemmas for the fetch loop -/

theorem runFetchAux_skip {m : Bool} {t : Nat → Int} {o : Nat → FetchOutcome}
    {retries k : Nat} {s : HomeState} (h : skipGuard m (t k) s = true) :
    runFetchAux m t o retries k s = (s, 0, []) := by
  cases retries <;> · rw [runFetchAux]; simp [h]

theorem runFetchAux_timeout_succ {m : Bool} {t : Nat → Int} {o : Nat → FetchOutcome}
    {r k : Nat} {s : HomeState} (h : skipGuard m (t k) s = false)
    (ho : o k = .timeout) :
    runFetchAux m t o (r + 1) k s =
      ((applyFinally m (runFetchAux m t o r (k + 1) (setBusy m s)).1),
       (runFetchAux m t o r (k + 1) (setBusy m s)).2.1 + 1,
       RETRY_DELAY :: (runFetchAux m t o r (k + 1) (setBusy m s)).2.2) := by
  rw [runFetchAux]
  simp [h, ho]

theorem runFetchAux_timeout_zero {m : Bool} {t : Nat → Int} {o : Nat → FetchOutcome}
    {k : Nat} {s : HomeState} (h : skipGuard m (t k) s = false)
    (ho : o k = .timeout) :
    runFetchAux m t o 0 k s = (applyFinally m (failWith timeoutMsg (setBusy m s)), 1, []) := by
  rw [runFetchAux]
  simp [h, ho]

theorem runFetchAux_notTimeout {m : Bool} {t : Nat → Int} {o : Nat → FetchOutcome}
    {retries k : Nat} {s : HomeState} (h : skipGuard m (t k) s = false)
    (ho : o k ≠ .timeout) :
    runFetchAux m t o retries k s =
      (applyFinally m (handleOutcome (t k) (o k) (setBusy m s)), 1, []) := by
  cases retries <;>
  · rw [runFetchAux]
    match hok : o k with
    | .timeout => exact absurd hok ho
    | .response status body => simp [h, hok]
    | .netError msg => simp [h, hok]

/-! ### The throttle guard along the retry chain -/

theorem skipGuard_setBusy (m m' : Bool) (now : Int) (s : HomeState) :
    skipGuard m now (setBusy m' s) = skipGuard m now s := by
  cases m' <;> rfl

/-- Once the guard lets an invocation through, it also lets every later
invocation on a state with the same data and fetch stamp through. -/
theorem skipGuard_false_mono {m : Bool} {now now' : Int} {s : HomeState}
    (h : skipGuard m now s = false) (hle : now ≤ now') :
    skipGuard m now' s = false := by
  cases m with
  | true => rfl
  | false =>
    simp only [skipGuard, Bool.not_false, Bool.true_and, Bool.and_eq_false_iff,
      decide_eq_false_iff_not, not_lt] at h ⊢
    rcases h with h | h
    · exact Or.inl (by omega)
    · exact Or.inr h

/-! ### Failure preserves the held data and the fetch stamp -/

/-- On every run of the fetch loop, either the final state still carries
a cleared error (a success or a skipped run whose error was already
clear), or the held listing data and the last-successful-fetch stamp are
exactly those of the starting state. -/
theorem runFetchAux_preserve (m : Bool) (t : Nat → Int) (o : Nat → FetchOutcome) :
    ∀ (retries k : Nat) (s : HomeState),
      ((runFetchAux m t o retries k s).1.cryptoData = s.cryptoData ∧
        (runFetchAux m t o retries k s).1.lastFetchTime = s.lastFetchTime) ∨
      (runFetchAux m t o retries k s).1.error = none := by
  intro retries
  induction retries with
  | zero =>
    intro k s
    by_cases hg : skipGuard m (t k) s = true
    · rw [runFetchAux_skip hg]
      exact Or.inl ⟨rfl, rfl⟩
    · rw [Bool.not_eq_true] at hg
      by_cases ht : o k = FetchOutcome.timeout
      · rw [runFetchAux_timeout_zero hg ht]
        refine Or.inl ⟨?_, ?_⟩
        · rw [applyFinally_cryptoData, failWith_cryptoData, setBusy_cryptoData]
        · rw [applyFinally_lastFetchTime, failWith_lastFetchTime, setBusy_lastFetchTime]
      · rw [runFetchAux_notTimeout hg ht]
        by_cases hs : isSuccess (o k)
        · match hok : o k, hs with
          | .response status (.arr data), hs =>
            refine Or.inr ?_
            rw [applyFinally_error, handleOutcome_success hs]
        · obtain ⟨msg, hmsg⟩ := handleOutcome_fail ht hs (t k) (setBusy m s)
          refine Or.inl ?_
          rw [hmsg]
          constructor
          · rw [applyFinally_cryptoData, failWith_cryptoData, setBusy_cryptoData]
          · rw [applyFinally_lastFetchTime, failWith_lastFetchTime, setBusy_lastFetchTime]
  | succ r ih =>
    intro k s
    by_cases hg : skipGuard m (t k) s = true
    · rw [runFetchAux_skip hg]
      exact Or.inl ⟨rfl, rfl⟩
    · rw [Bool.not_eq_true] at hg
      by_cases ht : o k = FetchOutcome.timeout
      · rw [runFetchAux_timeout_succ hg ht]
        rcases ih (k + 1) (setBusy m s) with ⟨h1, h2⟩ | h
        · refine Or.inl ⟨?_, ?_⟩
          · rw [applyFinally_cryptoData, h1, setBusy_cryptoData]
          · rw [applyFinally_lastFetchTime, h2, setBusy_lastFetchTime]
        · exact Or.inr (by rw [applyFinally_error, h])
      · rw [runFetchAux_notTimeout hg ht]
        by_cases hs : isSuccess (o k)
        · match hok : o k, hs with
          | .response status (.arr data), hs =>
            refine Or.inr ?_
            rw [applyFinally_error, handleOutcome_success hs]
        · obtain ⟨msg, hmsg⟩ := handleOutcome_fail ht hs (t k) (setBusy m s)
          refine Or.inl ?_
          rw [hmsg]
          constructor
          · rw [applyFinally_cryptoData, failWith_cryptoData, setBusy_cryptoData]
          · rw [applyFinally_lastFetchTime, failWith_lastFetchTime, setBusy_lastFetchTime]

/-- Whenever the final state carries an error, the held data is exactly
the starting data. -/
theorem runFetchAux_error_preserves (m : Bool) (t : Nat → Int) (o : Nat → FetchOutcome)
    (retries k : Nat) (s : HomeState)
    (h : (runFetchAux m t o retries k s).1.error ≠ none) :
    (runFetchAux m t o retries k s).1.cryptoData = s.cryptoData ∧
      (runFetchAux m t o retries k s).1.lastFetchTime = s.lastFetchTime := by
  rcases runFetchAux_preserve m t o retries k s with h' | h'
  · exact h'
  · exact absurd h' h

/-! ### The retry chain -/

/-- When the whole retry budget is consumed by aborted requests, the run
issues `retries + 1` requests, sleeps `RETRY_DELAY` before each of the
`retries` re-attempts, and ends with the timeout error message. -/
theorem runFetchAux_allTimeout {m : Bool} {t : Nat → Int} {o : Nat → FetchOutcome}
    (hm : Monotone t) :
    ∀ (r k : Nat) (s : HomeState), skipGuard m (t k) s = false →
      (∀ i, i ≤ r → o (k + i) = FetchOutcome.timeout) →
      runFetchAux m t o r k s =
        (applyFinally m (failWith timeoutMsg (setBusy m s)), r + 1,
          List.replicate r RETRY_DELAY) := by
  intro r
  induction r with
  | zero =>
    intro k s hg hto
    have h0 : o k = FetchOutcome.timeout := by simpa using hto 0 (by omega)
    rw [runFetchAux_timeout_zero hg h0]
    rfl
  | succ r ih =>
    intro k s hg hto
    have h0 : o k = FetchOutcome.timeout := by simpa using hto 0 (by omega)
    rw [runFetchAux_timeout_succ hg h0]
    have hg' : skipGuard m (t (k + 1)) (setBusy m s) = false := by
      rw [skipGuard_setBusy]
      exact skipGuard_false_mono hg (hm (by omega))
    have hto' : ∀ i, i ≤ r → o (k + 1 + i) = FetchOutcome.timeout := by
      intro i hi
      have : k + 1 + i = k + (i + 1) := by omega
      rw [this]
      exact hto (i + 1) (by omega)
    rw [ih (k + 1) (setBusy m s) hg' hto']
    rw [setBusy_idem, applyFinally_idem]
    rfl

/-- A run whose first `j` attempts are aborted and whose `(j+1)`-st
attempt completes equals the single-attempt handling of that completed
outcome, with `j` extra requests and `j` sleeps in front. -/
theorem runFetchAux_hop {m : Bool} {t : Nat → Int} {o : Nat → FetchOutcome}
    (hm : Monotone t) :
    ∀ (j r k : Nat) (s : HomeState), j ≤ r →
      skipGuard m (t k) s = false →
      (∀ i, i < j → o (k + i) = FetchOutcome.timeout) →
      o (k + j) ≠ FetchOutcome.timeout →
      runFetchAux m t o r k s =
        (applyFinally m (handleOutcome (t (k + j)) (o (k + j)) (setBusy m s)),
          j + 1, List.replicate j RETRY_DELAY) := by
  intro j
  induction j with
  | zero =>
    intro r k s _ hg _ hnt
    have hnt0 : o k ≠ FetchOutcome.timeout := by simpa using hnt
    rw [runFetchAux_notTimeout hg hnt0]
    simp
  | succ j ih =>
    intro r k s hjr hg hto hnt
    obtain ⟨r', rfl⟩ : ∃ r', r = r' + 1 := ⟨r - 1, by omega⟩
    have h0 : o k = FetchOutcome.timeout := by simpa using hto 0 (by omega)
    rw [runFetchAux_timeout_succ hg h0]
    have hg' : skipGuard m (t (k + 1)) (setBusy m s) = false := by
      rw [skipGuard_setBusy]
      exact skipGuard_false_mono hg (hm (by omega))
    have hto' : ∀ i, i < j → o (k + 1 + i) = FetchOutcome.timeout := by
      intro i hi
      have : k + 1 + i = k + (i + 1) := by omega
      rw [this]
      exact hto (i + 1) (by omega)
    have hshift : k + 1 + j = k + (j + 1) := by omega
    have hnt' : o (k + 1 + j) ≠ FetchOutcome.timeout := by rw [hshift]; exact hnt
    rw [ih r' (k + 1) (setBusy m s) (by omega) hg' hto' hnt']
    rw [setBusy_idem, applyFinally_idem, hshift]
    rfl

/-- Any run that is not cut off by the throttle guard issues at least
one HTTP request. -/
theorem runFetchAux_pos {m : Bool} {t : Nat → Int} {o : Nat → FetchOutcome}
    {retries k : Nat} {s : HomeState} (hg : skipGuard m (t k) s = false) :
    1 ≤ (runFetchAux m t o retries k s).2.1 := by
  by_cases ht : o k = FetchOutcome.timeout
  · cases retries with
    | zero => rw [runFetchAux_timeout_zero hg ht]
    | succ r => rw [runFetchAux_timeout_succ hg ht]; exact Nat.le_add_left 1 _
  · rw [runFetchAux_notTimeout hg ht]

/-! ### Concrete sample values used by the witness theorems -/

/-- The component's initial state (lines 32-43) with no stored
favorites. -/
def emptyHome : HomeState :=
  { cryptoData := [], favorites := [], loading := true, error := none,
    lastFetchTime := 0, isRefreshing := false }

/-- A sample listing record. -/
def sampleCoin (i : String) (vol change : Rat) : CryptoData :=
  { id := i, symbol := i, name := i, image := i, current_price := 1,
    price_change_percentage_24h := change, market_cap := 1,
    total_volume := vol, circulating_supply := 1, ath := 1,
    ath_date := "2021-01-01T00:00:00.000Z" }

/-- A state already holding one fetched listing. -/
def loadedHome : HomeState :=
  { emptyHome with cryptoData := [sampleCoin "bitcoin" 5 1], lastFetchTime := 100000 }

/-! ### Claims about the fetch lifecycle -/

/-- C1: a fetch attempt aborted by the 15-second timeout is retried
after a 3-second delay, up to `MAX_RETRIES = 3` retries total; the
error `Request timed out. Please try again.` is reported exactly when
the whole budget (the initial request plus 3 retries) is consumed by
timeouts, and a run whose `j`-th attempt fails for any non-timeout
reason stops after that attempt — a non-timeout failure is never
retried. -/
theorem fetch_retries_on_timeout (m : Bool) (t : Nat → Int) (o : Nat → FetchOutcome)
    (s : HomeState) (hm : Monotone t) (hg : skipGuard m (t 0) s = false) :
    ((∀ i, i ≤ MAX_RETRIES → o i = FetchOutcome.timeout) →
      (fetchCryptoData m t o s).1.error = some timeoutMsg ∧
      (fetchCryptoData m t o s).2.1 = MAX_RETRIES + 1 ∧
      (fetchCryptoData m t o s).2.2 = List.replicate MAX_RETRIES RETRY_DELAY) ∧
    (∀ j, j ≤ MAX_RETRIES → (∀ i, i < j → o i = FetchOutcome.timeout) →
      o j ≠ FetchOutcome.timeout →
      (fetchCryptoData m t o s).2.1 = j + 1 ∧
      (fetchCryptoData m t o s).2.2 = List.replicate j RETRY_DELAY) := by
  constructor
  · intro h
    rw [fetchCryptoData,
      runFetchAux_allTimeout hm MAX_RETRIES 0 s hg
        (by intro i hi; rw [Nat.zero_add]; exact h i hi)]
    exact ⟨by rw [applyFinally_error, failWith_error], rfl, rfl⟩
  · intro j hj hto hnt
    rw [fetchCryptoData,
      runFetchAux_hop hm j MAX_RETRIES 0 s hj hg
        (by intro i hi; rw [Nat.zero_add]; exact hto i hi)
        (by rw [Nat.zero_add]; exact hnt)]
    exact ⟨rfl, rfl⟩

/-- Witness for C1 at a concrete input: an automatic fetch on the fresh
state whose four attempts all time out. -/
theorem fetch_retries_on_timeout_witness :
    (fetchCryptoData false (fun _ => 20000) (fun _ => FetchOutcome.timeout)
        emptyHome).1.error = some timeoutMsg ∧
    (fetchCryptoData false (fun _ => 20000) (fun _ => FetchOutcome.timeout)
        emptyHome).2.1 = MAX_RETRIES + 1 ∧
    (fetchCryptoData false (fun _ => 20000) (fun _ => FetchOutcome.timeout)
        emptyHome).2.2 = List.replicate MAX_RETRIES RETRY_DELAY :=
  (fetch_retries_on_timeout false (fun _ => 20000) (fun _ => FetchOutcome.timeout)
    emptyHome monotone_const (by decide)).1 (fun _ _ => rfl)

/-- C2: whenever a run of `fetchCryptoData` ends with an error recorded
— a non-timeout failure on some attempt after a prefix of timeouts, or
a timeout on every attempt — the recorded error is a non-null string
and the previously held listing data is left exactly as it was. -/
theorem fetch_failure_keeps_data (m : Bool) (t : Nat → Int) (o : Nat → FetchOutcome)
    (s : HomeState) (hm : Monotone t) (hg : skipGuard m (t 0) s = false) :
    ((fetchCryptoData m t o s).1.error ≠ none →
      (fetchCryptoData m t o s).1.cryptoData = s.cryptoData) ∧
    (∀ j, j ≤ MAX_RETRIES → (∀ i, i < j → o i = FetchOutcome.timeout) →
      o j ≠ FetchOutcome.timeout → ¬ isSuccess (o j) →
      (fetchCryptoData m t o s).1.error ≠ none ∧
      (fetchCryptoData m t o s).1.cryptoData = s.cryptoData) ∧
    ((∀ i, i ≤ MAX_RETRIES → o i = FetchOutcome.timeout) →
      (fetchCryptoData m t o s).1.error ≠ none ∧
      (fetchCryptoData m t o s).1.cryptoData = s.cryptoData) := by
  refine ⟨?_, ?_, ?_⟩
  · intro h
    exact (runFetchAux_error_preserves m t o MAX_RETRIES 0 s h).1
  · intro j hj hto hnt hns
    rw [fetchCryptoData,
      runFetchAux_hop hm j MAX_RETRIES 0 s hj hg
        (by intro i hi; rw [Nat.zero_add]; exact hto i hi)
        (by rw [Nat.zero_add]; exact hnt)]
    obtain ⟨msg, hmsg⟩ :=
      @handleOutcome_fail (o (0 + j)) (by rw [Nat.zero_add]; exact hnt)
        (by rw [Nat.zero_add]; exact hns) (t (0 + j)) (setBusy m s)
    rw [hmsg]
    constructor
    · rw [applyFinally_error, failWith_error]; exact Option.some_ne_none msg
    · rw [applyFinally_cryptoData, failWith_cryptoData, setBusy_cryptoData]
  · intro h
    rw [fetchCryptoData,
      runFetchAux_allTimeout hm MAX_RETRIES 0 s hg
        (by intro i hi; rw [Nat.zero_add]; exact h i hi)]
    constructor
    · rw [applyFinally_error, failWith_error]; exact Option.some_ne_none timeoutMsg
    · rw [applyFinally_cryptoData, failWith_cryptoData, setBusy_cryptoData]

/-- Witness for C2 at a concrete input: a manual fetch against a state
holding one listing receives an HTTP 500 response; the error is set and
the held listing survives. -/
theorem fetch_failure_keeps_data_witness :
    (fetchCryptoData true (fun _ => 200000)
        (fun _ => FetchOutcome.response 500 BodyResult.nonArray) loadedHome).1.error ≠ none ∧
    (fetchCryptoData true (fun _ => 200000)
        (fun _ => FetchOutcome.response 500 BodyResult.nonArray)
        loadedHome).1.cryptoData = loadedHome.cryptoData :=
  (fetch_failure_keeps_data true (fun _ => 200000)
    (fun _ => FetchOutcome.response 500 BodyResult.nonArray) loadedHome
    monotone_const (by decide)).2.1 0 (by omega)
    (fun i hi => absurd hi (by omega)) (by decide) (by decide)

/-- C3: the manual refresh button is disabled whenever fewer than 10
seconds have elapsed since the last successful fetch, and a run of
`fetchCryptoData` changes the `lastFetchTime` stamp only when it ends
without an error — never on failure. -/
theorem manual_refresh_throttle (now : Int) (m : Bool) (t : Nat → Int)
    (o : Nat → FetchOutcome) (s : HomeState) :
    (now - s.lastFetchTime < 10000 → manualRefreshDisabled now s = true) ∧
    ((fetchCryptoData m t o s).1.lastFetchTime ≠ s.lastFetchTime →
      (fetchCryptoData m t o s).1.error = none) := by
  constructor
  · intro h
    simp [manualRefreshDisabled, h]
  · intro h
    rcases runFetchAux_preserve m t o MAX_RETRIES 0 s with ⟨_, h2⟩ | h2
    · exact absurd h2 h
    · exact h2

/-- Witness for C3 at a concrete input: 5 seconds after a successful
fetch the button is disabled, and a successful manual fetch that moves
the stamp indeed ends with a clear error. -/
theorem manual_refresh_throttle_witness :
    manualRefreshDisabled 105000 loadedHome = true ∧
    (fetchCryptoData true (fun _ => 200000)
        (fun _ => FetchOutcome.response 200 (BodyResult.arr [])) loadedHome).1.error = none :=
  ⟨(manual_refresh_throttle 105000 true (fun _ => 200000)
      (fun _ => FetchOutcome.response 200 (BodyResult.arr [])) loadedHome).1 (by decide),
   (manual_refresh_throttle 105000 true (fun _ => 200000)
      (fun _ => FetchOutcome.response 200 (BodyResult.arr [])) loadedHome).2 (by decide)⟩

/-- C4: classification of a completed first attempt — status 429 yields
the rate-limit message, any other non-OK status yields the generic
`Failed to fetch data (HTTP <status>)` message, and an OK response whose
body is not a JSON array yields the invalid-data message. -/
theorem fetch_error_classification (m : Bool) (t : Nat → Int) (o : Nat → FetchOutcome)
    (s : HomeState) (hg : skipGuard m (t 0) s = false) :
    (∀ body, o 0 = FetchOutcome.response 429 body →
      (fetchCryptoData m t o s).1.error = some rateLimitMsg) ∧
    (∀ status body, o 0 = FetchOutcome.response status body → status ≠ 429 →
      responseOk status = false →
      (fetchCryptoData m t o s).1.error = some (httpErrorMsg status)) ∧
    (∀ status, o 0 = FetchOutcome.response status BodyResult.nonArray →
      responseOk status = true →
      (fetchCryptoData m t o s).1.error = some invalidDataMsg) := by
  refine ⟨?_, ?_, ?_⟩
  · intro body h0
    rw [fetchCryptoData, runFetchAux_notTimeout hg (by rw [h0]; exact fun h => nomatch h)]
    rw [applyFinally_error, h0]
    simp [handleOutcome, failWith_error]
  · intro status body h0 h429 hok
    rw [fetchCryptoData, runFetchAux_notTimeout hg (by rw [h0]; exact fun h => nomatch h)]
    rw [applyFinally_error, h0]
    simp [handleOutcome, h429, hok, failWith_error]
  · intro status h0 hok
    rw [fetchCryptoData, runFetchAux_notTimeout hg (by rw [h0]; exact fun h => nomatch h)]
    rw [applyFinally_error, h0]
    simp [handleOutcome, responseOk_ne_429 hok, hok, failWith_error]

/-- Witness for C4 at concrete inputs, including the literal rendering
of the generic message for status 500. -/
theorem fetch_error_classification_witness :
    (fetchCryptoData false (fun _ => 20000)
        (fun _ => FetchOutcome.response 429 BodyResult.nonArray) emptyHome).1.error =
      some "Rate limit exceeded. Please wait a moment before refreshing." ∧
    (fetchCryptoData false (fun _ => 20000)
        (fun _ => FetchOutcome.response 500 BodyResult.nonArray) emptyHome).1.error =
      some "Failed to fetch data (HTTP 500)" ∧
    (fetchCryptoData false (fun _ => 20000)
        (fun _ => FetchOutcome.response 200 BodyResult.nonArray) emptyHome).1.error =
      some "Invalid data received from the server" :=
  ⟨(fetch_error_classification false (fun _ => 20000)
      (fun _ => FetchOutcome.response 429 BodyResult.nonArray) emptyHome (by decide)).1
      BodyResult.nonArray rfl,
   (fetch_error_classification false (fun _ => 20000)
      (fun _ => FetchOutcome.response 500 BodyResult.nonArray) emptyHome (by decide)).2.1
      500 BodyResult.nonArray rfl (by decide) (by decide),
   (fetch_error_classification false (fun _ => 20000)
      (fun _ => FetchOutcome.response 200 BodyResult.nonArray) emptyHome (by decide)).2.2
      200 rfl (by decide)⟩

/-- C10: the 10-second throttle inside `fetchCryptoData` only skips
automatic fetches over a non-empty data list — a manual invocation
always issues a request, an automatic invocation within 10 seconds of
the last success still issues a request when the data list is empty,
and an automatic invocation within 10 seconds over a non-empty list is
skipped without any request or state change. -/
theorem internal_throttle_scope (t : Nat → Int) (o : Nat → FetchOutcome) (s : HomeState) :
    1 ≤ (fetchCryptoData true t o s).2.1 ∧
    (s.cryptoData = [] → t 0 - s.lastFetchTime < 10000 →
      1 ≤ (fetchCryptoData false t o s).2.1) ∧
    (s.cryptoData ≠ [] → t 0 - s.lastFetchTime < 10000 →
      fetchCryptoData false t o s = (s, 0, [])) := by
  refine ⟨?_, ?_, ?_⟩
  · exact runFetchAux_pos (by simp [skipGuard])
  · intro he _
    exact runFetchAux_pos (by simp [skipGuard, he])
  · intro hne hlt
    exact runFetchAux_skip (by simp [skipGuard, hlt, List.length_pos.mpr hne])

/-- Witness for C10 at concrete inputs: an automatic fetch 5 seconds
after success proceeds on an empty list and is skipped on a loaded
one. -/
theorem internal_throttle_scope_witness :
    1 ≤ (fetchCryptoData false (fun _ => 5000) (fun _ => FetchOutcome.timeout)
        emptyHome).2.1 ∧
    fetchCryptoData false (fun _ => 105000) (fun _ => FetchOutcome.timeout)
        loadedHome = (loadedHome, 0, []) :=
  ⟨(internal_throttle_scope (fun _ => 5000) (fun _ => FetchOutcome.timeout)
      emptyHome).2.1 rfl (by decide),
   (internal_throttle_scope (fun _ => 105000) (fun _ => FetchOutcome.timeout)
      loadedHome).2.2 (by decide) (by decide)⟩

/-! ### Claims about the pure views -/

/-- The descending comparison used by the gainers sort, as a boolean
relation (the JS comparator `(a, b) => b.pcp - a.pcp` keeps `a` before
`b` exactly when `b.pcp ≤ a.pcp`). -/
def gainersLe (a b : CryptoData) : Bool :=
  decide (b.price_change_percentage_24h ≤ a.price_change_percentage_24h)

theorem gainersLe_trans (a b c : CryptoData) :
    gainersLe a b → gainersLe b c → gainersLe a c := by
  simp only [gainersLe, decide_eq_true_eq]
  intro h1 h2
  exact le_trans h2 h1

theorem gainersLe_total (a b : CryptoData) : gainersLe a b || gainersLe b a := by
  simp only [gainersLe, Bool.or_eq_true, decide_eq_true_eq]
  exact le_total b.price_change_percentage_24h a.price_change_percentage_24h

/-- C6: the gainers view is the 10-element prefix of a permutation of
the fetched list that is sorted by descending 24h percentage change;
its length is 10 capped by the list length, and producing the view
leaves the component state — in particular the fetched list — exactly
as it was. -/
theorem gainers_view_ranked_take10 (parseDate : String → Int) (now : Int) (s : HomeState) :
    (∃ ranked : List CryptoData,
      s.cryptoData.Perm ranked ∧
      ranked.Pairwise
        (fun a b => b.price_change_percentage_24h ≤ a.price_change_percentage_24h) ∧
      (filterCryptosView parseDate now s "gainers").1 = ranked.take 10) ∧
    (filterCryptosView parseDate now s "gainers").1.length = min 10 s.cryptoData.length ∧
    (filterCryptosView parseDate now s "gainers").2 = s := by
  refine ⟨⟨s.cryptoData.mergeSort gainersLe, ?_, ?_, ?_⟩, ?_, rfl⟩
  · exact (List.mergeSort_perm s.cryptoData gainersLe).symm
  · refine (List.sorted_mergeSort gainersLe_trans gainersLe_total s.cryptoData).imp ?_
    intro a b h
    simpa [gainersLe] using h
  · rfl
  · simp [filterCryptosView, filterCryptos, List.length_take]

/-- C7: the hot view keeps exactly the listings with total volume at
least `HOT_THRESHOLD = 1,000,000,000`, and the meme view keeps exactly
the listings whose id belongs to the static `MEME_COINS` list; both are
sublists of the fetched list, hence in original order. -/
theorem hot_and_meme_views (parseDate : String → Int) (now : Int) (s : HomeState) :
    ((filterCryptosView parseDate now s "hot").1.Sublist s.cryptoData ∧
      ∀ c, c ∈ (filterCryptosView parseDate now s "hot").1 ↔
        c ∈ s.cryptoData ∧ HOT_THRESHOLD ≤ c.total_volume) ∧
    ((filterCryptosView parseDate now s "meme").1.Sublist s.cryptoData ∧
      ∀ c, c ∈ (filterCryptosView parseDate now s "meme").1 ↔
        c ∈ s.cryptoData ∧ c.id ∈ MEME_COINS) := by
  refine ⟨⟨?_, ?_⟩, ⟨?_, ?_⟩⟩
  · simp only [filterCryptosView, filterCryptos]
    exact List.filter_sublist s.cryptoData
  · intro c
    simp [filterCryptosView, filterCryptos, List.mem_filter]
  · simp only [filterCryptosView, filterCryptos]
    exact List.filter_sublist s.cryptoData
  · intro c
    simp [filterCryptosView, filterCryptos, List.mem_filter]

/-- C9: `toggleFavorite` preserves duplicate-freeness; toggling an id
that is present removes every occurrence of it, and toggling an id that
is absent appends it exactly once at the end. -/
theorem toggleFavorite_spec (favs : List String) (cryptoId : String) :
    (favs.Nodup → (toggleFavorite favs cryptoId).Nodup) ∧
    (cryptoId ∈ favs → cryptoId ∉ toggleFavorite favs cryptoId) ∧
    (cryptoId ∉ favs → toggleFavorite favs cryptoId = favs ++ [cryptoId]) := by
  refine ⟨?_, ?_, ?_⟩
  · intro h
    by_cases hc : favs.contains cryptoId
    · rw [toggleFavorite, if_pos hc]
      exact h.filter _
    · rw [toggleFavorite, if_neg hc]
      have hm : cryptoId ∉ favs := by simpa using hc
      simp [List.nodup_append, h, hm]
  · intro hm
    rw [toggleFavorite, if_pos (by simpa using hm)]
    intro hmem
    have := (List.mem_filter.mp hmem).2
    simp at this
  · intro hm
    rw [toggleFavorite, if_neg (by simpa using hm)]

/-- Witness for C9 at concrete inputs. -/
theorem toggleFavorite_spec_witness :
    (toggleFavorite ["dogecoin", "pepe"] "dogecoin").Nodup ∧
    "dogecoin" ∉ toggleFavorite ["dogecoin", "pepe"] "dogecoin" ∧
    toggleFavorite ["dogecoin", "pepe"] "bonk" = ["dogecoin", "pepe", "bonk"] :=
  ⟨(toggleFavorite_spec ["dogecoin", "pepe"] "dogecoin").1 (by decide),
   (toggleFavorite_spec ["dogecoin", "pepe"] "dogecoin").2.1 (by decide),
   (toggleFavorite_spec ["dogecoin", "pepe"] "bonk").2.2 (by decide)⟩

/-! ### Round-trip of the favorites serialization -/

theorem hexVal_hexDigitChar : ∀ n, n < 16 → hexVal (hexDigitChar n) = some n := by
  decide

theorem one_le_escChar_length (c : Char) : 1 ≤ (escChar c).length := by
  unfold escChar
  split_ifs <;> simp

theorem length_le_encodeChars : ∀ s : List Char, s.length ≤ (encodeChars s).length := by
  intro s
  induction s with
  | nil => simp [encodeChars]
  | cons c cs ih =>
    have := one_le_escChar_length c
    simp only [encodeChars, List.length_append, List.length_cons]
    omega

/-- `JSON.parse` of a `\uXXXX` escape body. -/
theorem unescape1_u (h1 h2 h3 h4 : Char) (a b c d : Nat) (r : List Char)
    (e1 : hexVal h1 = some a) (e2 : hexVal h2 = some b)
    (e3 : hexVal h3 = some c) (e4 : hexVal h4 = some d) :
    unescape1 ('u' :: h1 :: h2 :: h3 :: h4 :: r) =
      some (Char.ofNat (4096 * a + 256 * b + 16 * c + d), r) := by
  rw [unescape1]
  rw [if_neg (by decide), if_neg (by decide), if_neg (by decide), if_neg (by decide),
    if_neg (by decide), if_neg (by decide), if_neg (by decide), if_neg (by decide),
    if_pos rfl]
  rw [e1, e2, e3, e4]

/-- Decoding consumes one escaped character from the front. -/
theorem decodeCharsF_escChar (c : Char) (fuel : Nat) (rest : List Char) :
    decodeCharsF (fuel + 1) (escChar c ++ rest) =
      (decodeCharsF fuel rest).map (fun p => (c :: p.1, p.2)) := by
  unfold escChar
  split_ifs with h1 h2 h3 h4 h5 h6 h7 h8
  · subst h1
    show decodeCharsF (fuel + 1) ('\\' :: '"' :: rest) = _
    rw [decodeCharsF, if_neg (by decide), if_pos rfl]
    have h : unescape1 ('"' :: rest) = some ('"', rest) := rfl
    rw [h]
  · subst h2
    show decodeCharsF (fuel + 1) ('\\' :: '\\' :: rest) = _
    rw [decodeCharsF, if_neg (by decide), if_pos rfl]
    have h : unescape1 ('\\' :: rest) = some ('\\', rest) := rfl
    rw [h]
  · subst h3
    show decodeCharsF (fuel + 1) ('\\' :: 'b' :: rest) = _
    rw [decodeCharsF, if_neg (by decide), if_pos rfl]
    have h : unescape1 ('b' :: rest) = some ('\x08', rest) := rfl
    rw [h]
  · subst h4
    show decodeCharsF (fuel + 1) ('\\' :: 'f' :: rest) = _
    rw [decodeCharsF, if_neg (by decide), if_pos rfl]
    have h : unescape1 ('f' :: rest) = some ('\x0c', rest) := rfl
    rw [h]
  · subst h5
    show decodeCharsF (fuel + 1) ('\\' :: 'n' :: rest) = _
    rw [decodeCharsF, if_neg (by decide), if_pos rfl]
    have h : unescape1 ('n' :: rest) = some ('\n', rest) := rfl
    rw [h]
  · subst h6
    show decodeCharsF (fuel + 1) ('\\' :: 'r' :: rest) = _
    rw [decodeCharsF, if_neg (by decide), if_pos rfl]
    have h : unescape1 ('r' :: rest) = some ('\r', rest) := rfl
    rw [h]
  · subst h7
    show decodeCharsF (fuel + 1) ('\\' :: 't' :: rest) = _
    rw [decodeCharsF, if_neg (by decide), if_pos rfl]
    have h : unescape1 ('t' :: rest) = some ('\t', rest) := rfl
    rw [h]
  · show decodeCharsF (fuel + 1)
      ('\\' :: 'u' :: '0' :: '0' :: hexDigitChar (c.toNat / 16) ::
        hexDigitChar (c.toNat % 16) :: rest) = _
    rw [decodeCharsF, if_neg (by decide), if_pos rfl]
    rw [unescape1_u '0' '0' (hexDigitChar (c.toNat / 16)) (hexDigitChar (c.toNat % 16))
      0 0 (c.toNat / 16) (c.toNat % 16) rest rfl rfl
      (hexVal_hexDigitChar _ (by omega)) (hexVal_hexDigitChar _ (by omega))]
    rw [show 4096 * 0 + 256 * 0 + 16 * (c.toNat / 16) + c.toNat % 16 = c.toNat by omega]
    rw [Char.ofNat_toNat]
  · show decodeCharsF (fuel + 1) (c :: rest) = _
    rw [decodeCharsF, if_neg h1, if_neg h2]

/-- Decoding inverts encoding of a whole string body, leaving the input
after the closing quote untouched. -/
theorem decodeCharsF_encodeChars :
    ∀ (s : List Char) (fuel : Nat) (rest : List Char), s.length < fuel →
      decodeCharsF fuel (encodeChars s ++ ('"' :: rest)) = some (s, rest) := by
  intro s
  induction s with
  | nil =>
    intro fuel rest hf
    obtain ⟨f, rfl⟩ : ∃ f, fuel = f + 1 := ⟨fuel - 1, by omega⟩
    simp [encodeChars, decodeCharsF]
  | cons c cs ih =>
    intro fuel rest hf
    obtain ⟨f, rfl⟩ : ∃ f, fuel = f + 1 := ⟨fuel - 1, by omega⟩
    simp only [encodeChars, List.append_assoc]
    rw [decodeCharsF_escChar, ih f rest (by simpa using hf)]
    rfl

theorem length_le_encodeElems : ∀ l : List String, l.length ≤ (encodeElems l).length := by
  intro l
  induction l with
  | nil => simp [encodeElems]
  | cons s ss ih =>
    cases ss with
    | nil => simp [encodeElems]
    | cons s2 tt =>
      simp only [encodeElems, List.length_cons, List.length_append] at ih ⊢
      omega

/-- Decoding inverts encoding of the element list of a non-empty
array. -/
theorem decodeArrAux_encodeElems :
    ∀ (l : List String) (fuel : Nat), l ≠ [] → l.length < fuel →
      decodeArrAux fuel (encodeElems l ++ [']']) = some (l, []) := by
  intro l
  induction l with
  | nil => intro fuel h _; exact absurd rfl h
  | cons s ss ih =>
    intro fuel _ hf
    obtain ⟨f, rfl⟩ : ∃ f, fuel = f + 1 := ⟨fuel - 1, by omega⟩
    cases ss with
    | nil =>
      simp only [encodeElems, List.cons_append, List.append_assoc, List.cons_append,
        List.nil_append]
      rw [decodeArrAux]
      rw [decodeCharsF_encodeChars s.data _ [']']
        (by
          have := length_le_encodeChars s.data
          simp only [List.length_append, List.length_cons, List.length_nil]
          omega)]
      rfl
    | cons s2 tt =>
      simp only [encodeElems, List.cons_append, List.append_assoc, List.cons_append,
        List.nil_append]
      rw [decodeArrAux]
      rw [decodeCharsF_encodeChars s.data _ (',' :: (encodeElems (s2 :: tt) ++ [']']))
        (by
          have := length_le_encodeChars s.data
          simp only [List.length_append, List.length_cons, List.length_nil]
          omega)]
      show Option.map (fun p => (String.mk s.data :: p.1, p.2))
        (decodeArrAux f (encodeElems (s2 :: tt) ++ [']'])) = some (s :: s2 :: tt, [])
      rw [ih f (by simp) (by simp only [List.length_cons] at hf ⊢; omega)]
      rfl

/-- `JSON.parse` inverts `JSON.stringify` on every favorites list. -/
theorem decodeFavs_encodeFavs (l : List String) : decodeFavs (encodeFavs l) = some l := by
  cases l with
  | nil => rfl
  | cons s ss =>
    obtain ⟨tail, htail⟩ : ∃ tail, encodeElems (s :: ss) = '"' :: tail := by
      cases ss <;> exact ⟨_, rfl⟩
    have hne : encodeElems (s :: ss) ++ [']'] ≠ [']'] := by
      rw [htail]
      simp
    have harr := decodeArrAux_encodeElems (s :: ss)
      ((encodeElems (s :: ss) ++ [']']).length + 1) (by simp)
      (by
        have h1 := length_le_encodeElems (s :: ss)
        simp only [List.length_append, List.length_cons, List.length_nil] at h1 ⊢
        omega)
    show (if encodeElems (s :: ss) ++ [']'] = [']'] then some []
      else
        match decodeArrAux ((encodeElems (s :: ss) ++ [']']).length + 1)
            (encodeElems (s :: ss) ++ [']']) with
        | some (l, []) => some l
        | _ => none) = some (s :: ss)
    rw [if_neg hne, harr]

/-- C8: the favorites list is mirrored to localStorage under the key
`cryptoFavorites` as a serialized flat list of identifiers: the
persistence effect stores the whole serialized list under that key,
reading a store just written deserializes back to exactly the same
list, and loading from a store without the key yields the empty
list. -/
theorem favorites_persistence_roundtrip (store : Store) (l : List String) :
    getItem (persistFavorites store l) "cryptoFavorites" = some (encodeFavs l) ∧
    loadFavorites (persistFavorites store l) = some l ∧
    loadFavorites [] = some [] := by
  have hget : getItem (persistFavorites store l) "cryptoFavorites" = some (encodeFavs l) := by
    simp [getItem, setItem, persistFavorites]
  refine ⟨hget, ?_, rfl⟩
  rw [loadFavorites, hget]
  exact decodeFavs_encodeFavs l

/-! ### Characterization of the scheduler run -/

/-- Closed form of the interval registration after `T` ticks: registered
once tick `initDone` has been processed, and cleared only when the
cleanup tick `cleared` was processed no earlier than the
registration (clearing before registration is the leak: `clearInterval`
runs on an `intervalId` that is still `undefined`). -/
def intervalState (initDone cleared T : Nat) : Option Nat :=
  if initDone < T ∧ ¬(initDone ≤ cleared ∧ cleared < T) then some initDone else none

theorem intervalState_succ (initDone cleared T : Nat) :
    (if T = cleared then none
      else if T = initDone then some T
      else intervalState initDone cleared T) =
      intervalState initDone cleared (T + 1) := by
  unfold intervalState
  by_cases hC : T = cleared <;> by_cases hI : T = initDone <;>
    split_ifs <;> simp_all <;> omega

theorem schedFire_iff (initDone cleared T : Nat) :
    schedFire initDone cleared T ↔
      (initDone < T + 1 ∧ ¬(initDone ≤ cleared ∧ cleared < T + 1)) ∧
        initDone < T ∧ (T - initDone) % AUTO_REFRESH_INTERVAL = 0 := by
  unfold schedFire intervalLive
  constructor
  · rintro ⟨⟨h1, h2⟩, h3, h4⟩
    refine ⟨⟨by omega, ?_⟩, h3, h4⟩
    intro h
    have := h2 h.1
    omega
  · rintro ⟨⟨h1, h2⟩, h3, h4⟩
    refine ⟨⟨by omega, ?_⟩, h3, h4⟩
    intro h
    omega

theorem intervalFireB_intervalState (initDone cleared T : Nat) :
    intervalFireB (intervalState initDone cleared (T + 1)) T =
      decide (schedFire initDone cleared T) := by
  unfold intervalFireB intervalState
  split_ifs with hA
  · by_cases hF : initDone < T ∧ (T - initDone) % AUTO_REFRESH_INTERVAL = 0
    · have hfire : schedFire initDone cleared T := (schedFire_iff _ _ _).mpr ⟨hA, hF⟩
      simp [hF.1, hF.2, hfire]
    · have hfire : ¬ schedFire initDone cleared T := fun h =>
        hF ((schedFire_iff _ _ _).mp h).2
      rw [decide_eq_false hfire]
      simp only [Bool.and_eq_false_iff, decide_eq_false_iff_not]
      omega
  · have hfire : ¬ schedFire initDone cleared T := fun h =>
      hA ((schedFire_iff _ _ _).mp h).1
    rw [decide_eq_false hfire]

theorem schedStep_spec (mount initDone cleared : Nat) (s : SchedTrace) (T : Nat)
    (hs : s.intervalStart = intervalState initDone cleared T) :
    (schedStep mount initDone cleared s T).intervalStart =
      intervalState initDone cleared (T + 1) ∧
    (schedStep mount initDone cleared s T).fetches =
      s.fetches ++ ((if T = mount then [T] else []) ++
        (if schedFire initDone cleared T then [T] else [])) := by
  have hfetched : (if T = mount then s.fetches ++ [T] else s.fetches) =
      s.fetches ++ (if T = mount then [T] else []) := by
    split <;> simp
  unfold schedStep
  simp only [hs, intervalState_succ, hfetched]
  rw [intervalFireB_intervalState]
  by_cases hF : schedFire initDone cleared T
  · rw [if_pos (by simpa using hF)]
    exact ⟨rfl, by simp [hF]⟩
  · rw [if_neg (by simpa using hF)]
    exact ⟨rfl, by simp [hF]⟩

/-- The fetch times of a scheduler run are exactly the mount time plus
the interval firings, each occurring once, in tick order. -/
theorem schedRun_fetches (mount initDone cleared : Nat) (hmi : mount ≤ initDone) :
    ∀ T : Nat,
      (schedRun mount initDone cleared T).intervalStart =
        intervalState initDone cleared T ∧
      (schedRun mount initDone cleared T).fetches =
        (List.range T).filter
          (fun u => decide (u = mount) || decide (schedFire initDone cleared u)) := by
  intro T
  induction T with
  | zero => exact ⟨rfl, rfl⟩
  | succ T ih =>
    have hstep := schedStep_spec mount initDone cleared
      (schedRun mount initDone cleared T) T ih.1
    refine ⟨hstep.1, ?_⟩
    show (schedStep mount initDone cleared (schedRun mount initDone cleared T) T).fetches = _
    rw [hstep.2, ih.2, List.range_succ, List.filter_append]
    congr 1
    by_cases hM : T = mount
    · subst hM
      have hnf : ¬ schedFire initDone cleared T := by
        unfold schedFire intervalLive
        omega
      simp [hnf]
    · by_cases hF : schedFire initDone cleared T <;> simp [hM, hF]

/-- C5 (amended): over one effect lifetime with the teardown happening
after the initial fetch has completed (`initDone < cleared`), the
scheduler fetches exactly once at mount time, every other fetch time is
an interval firing `initDone + AUTO_REFRESH_INTERVAL * (k + 1)` lying
before the teardown — so the interval starts only after the initial
fetch completes and ticks at the fixed 60-second period — and no
automatic fetch happens at or after teardown. -/
theorem scheduler_spec (mount initDone cleared T : Nat)
    (hmi : mount ≤ initDone) (hic : initDone < cleared) :
    (mount < T → (schedRun mount initDone cleared T).fetches.count mount = 1) ∧
    (∀ u, u ≠ mount →
      (u ∈ (schedRun mount initDone cleared T).fetches ↔
        u < T ∧ u < cleared ∧
          ∃ k, u = initDone + AUTO_REFRESH_INTERVAL * (k + 1))) ∧
    (∀ u, cleared ≤ u → u ≠ mount →
      u ∉ (schedRun mount initDone cleared T).fetches) := by
  have hrun := (schedRun_fetches mount initDone cleared hmi T).2
  have hmem : ∀ u, u ∈ (schedRun mount initDone cleared T).fetches ↔
      u ∈ List.range T ∧ (u = mount ∨ schedFire initDone cleared u) := by
    intro u
    rw [hrun, List.mem_filter]
    simp
  have hfire_iff : ∀ u, schedFire initDone cleared u ↔
      u < cleared ∧ ∃ k, u = initDone + AUTO_REFRESH_INTERVAL * (k + 1) := by
    intro u
    unfold schedFire intervalLive
    constructor
    · rintro ⟨⟨h1, h2⟩, h3, h4⟩
      have hcl : u < cleared := h2 (by omega)
      refine ⟨hcl, ?_⟩
      obtain ⟨m, hm⟩ := Nat.dvd_iff_mod_eq_zero.mpr h4
      unfold AUTO_REFRESH_INTERVAL at hm
      exact ⟨m - 1, by unfold AUTO_REFRESH_INTERVAL; omega⟩
    · rintro ⟨hcl, k, rfl⟩
      refine ⟨⟨by omega, fun _ => hcl⟩, by unfold AUTO_REFRESH_INTERVAL; omega, ?_⟩
      simp [Nat.add_sub_cancel_left, Nat.mul_mod_right]
  refine ⟨?_, ?_, ?_⟩
  · intro hT
    rw [hrun]
    refine List.count_eq_one_of_mem ((List.nodup_range T).filter _) ?_
    rw [List.mem_filter]
    simp [List.mem_range, hT]
  · intro u hu
    rw [hmem u, hfire_iff u]
    constructor
    · rintro ⟨h1, h2 | h2⟩
      · exact absurd h2 hu
      · exact ⟨by simpa using h1, h2.1, h2.2⟩
    · rintro ⟨h1, h2, h3⟩
      exact ⟨by simpa using h1, Or.inr ⟨h2, h3⟩⟩
  · intro u hcl hu hmem'
    rcases (hmem u).mp hmem' with ⟨_, h | h⟩
    · exact hu h
    · have := ((hfire_iff u).mp h).1
      omega

/-- Witness for C5 (amended) at a concrete input: mount at 0, initial
fetch done at 0, teardown at 100000: the load fetch happens exactly
once within the first 3 ticks. -/
theorem scheduler_spec_witness :
    (schedRun 0 0 100000 3).fetches.count 0 = 1 :=
  (scheduler_spec 0 0 100000 3 (by omega) (by omega)).1 (by omega)

/-- Counterexample to C5 as stated: when the teardown (at time 1)
precedes the completion of the initial fetch (at time 2), the interval
registered afterwards is never cancelled — an automatic fetch still
fires at time 60002, after the teardown. -/
theorem scheduler_cancel_leak :
    1 ≤ 60002 ∧ 60002 ≠ 0 ∧ 60002 ∈ (schedRun 0 2 1 60003).fetches := by
  refine ⟨by omega, by omega, ?_⟩
  rw [(schedRun_fetches 0 2 1 (by omega) 60003).2, List.mem_filter]
  constructor
  · simp [List.mem_range]
  · simp only [Bool.or_eq_true, decide_eq_true_eq]
    refine Or.inr ?_
    unfold schedFire intervalLive AUTO_REFRESH_INTERVAL
    omega

end CryptoDash
